/-
Verification of the Ulysses_Tarot image-compression scripts against their
specification.  The batch scripts (compress_images.py,
compress_images_aggressive.py, compress_webp_aggressive.py,
convert_to_webp.py, restore_and_convert.py) are shallowly embedded: the
collection root and each backup area are association lists from file names
to byte sizes, the external codec (PIL) is an oracle supplying decode
success, color mode, alpha data and the encoded byte size, and each
script's per-asset session and main loop are translated control branch by
control branch from the Python source.
-/
import Mathlib

namespace Tarot

/-- On-disk container extension of a file name.  The scripts compare
suffixes lower-cased where it matters, so the extension is modelled
case-normalized. -/
inductive Ext
  | png
  | jpg
  | jpeg
  | webp
deriving DecidableEq, Repr

/-- A file name in the collection root or a backup area.  tempDepth counts
leading ".temp_" markers (0 = a live asset name), base is the stable base
name, ext the container extension.  The Python expression
".temp_" + img_file.name adds one marker; Path.with_suffix changes only
the extension. -/
structure FName where
  tempDepth : Nat
  base : String
  ext : Ext
deriving DecidableEq, Repr

/-- The temporary-name convention of the scripts: the candidate for asset
n is written under ".temp_" + n.name. -/
def tempOf (n : FName) : FName :=
  { n with tempDepth := n.tempDepth + 1 }

/-- Path.with_suffix: replace the extension, keep the rest of the name. -/
def withSuffix (n : FName) (e : Ext) : FName :=
  { n with ext := e }

/-- A directory (the collection root, or a backup area) as an association
list from file names to byte sizes. -/
abbrev FS := List (FName × Nat)

/-- Path.exists / stat().st_size: the byte size stored under a name. -/
def FS.lookup : FS → FName → Option Nat
  | [], _ => none
  | (m, s) :: t, n => if m = n then some s else FS.lookup t n

/-- Path.unlink: remove the entry with the given name. -/
def FS.erase : FS → FName → FS
  | [], _ => []
  | (m, s) :: t, n => if m = n then FS.erase t n else (m, s) :: FS.erase t n

/-- img.save or shutil.copy2 to a path: create or overwrite the file. -/
def FS.write (fs : FS) (n : FName) (s : Nat) : FS :=
  (n, s) :: FS.erase fs n

/-- Path.replace: rename src onto dst, overwriting any existing dst. -/
def FS.replace (fs : FS) (src dst : FName) : FS :=
  match FS.lookup fs src with
  | some s => FS.write (FS.erase fs src) dst s
  | none => fs

/-- Number of entries a directory stores under one name. -/
def FS.countKey : FS → FName → Nat
  | [], _ => 0
  | (m, _) :: t, n => (if m = n then 1 else 0) + FS.countKey t n

/-- Color mode tags the scripts branch on (PIL img.mode values). -/
inductive Mode
  | RGB
  | RGBA
  | LA
  | L
  | P
deriving DecidableEq, Repr

/-- Transparency check from compress_images_aggressive.py and
restore_and_convert.py (the two copies are identical): for RGBA the alpha
plane is scanned for any value strictly below 255; for LA the function
returns True without any scan; every other mode returns False. -/
def has_transparency (m : Mode) (alpha : List Nat) : Bool :=
  match m with
  | Mode.RGBA => alpha.any (fun p => decide (p < 255))
  | Mode.LA => true
  | _ => false

/-- Modes classified as carrying an alpha channel (RGBA-like and
grayscale+alpha-like), the domain over which the transparency claim
quantifies. -/
def modeHasAlpha : Mode → Bool
  | Mode.RGBA => true
  | Mode.LA => true
  | _ => false

theorem tempOf_ne (n : FName) : tempOf n ≠ n := by
  cases n with
  | mk d b e =>
    intro h
    simp [tempOf] at h

theorem tempOf_ne_live (n m : FName) (h : m.tempDepth = 0) : tempOf n ≠ m := by
  intro he
  have : (tempOf n).tempDepth = m.tempDepth := by rw [he]
  simp [tempOf, h] at this

theorem tempOf_inj (n m : FName) (h : tempOf n = tempOf m) : n = m := by
  cases n with
  | mk d b e =>
    cases m with
    | mk d2 b2 e2 =>
      simp [tempOf] at h
      simp [h.1, h.2.1, h.2.2]

theorem FS.lookup_erase_self (fs : FS) (n : FName) :
    FS.lookup (FS.erase fs n) n = none := by
  induction fs with
  | nil => rfl
  | cons p t ih =>
    cases p with
    | mk m s =>
      by_cases h : m = n
      · simp [FS.erase, h, ih]
      · simp [FS.erase, FS.lookup, h, ih]

theorem FS.lookup_erase_ne (fs : FS) (m n : FName) (h : m ≠ n) :
    FS.lookup (FS.erase fs m) n = FS.lookup fs n := by
  induction fs with
  | nil => rfl
  | cons p t ih =>
    cases p with
    | mk k s =>
      by_cases hk : k = m
      · subst hk
        simp [FS.erase, FS.lookup, h, ih]
      · simp [FS.erase, FS.lookup, hk, ih]

theorem FS.erase_of_lookup_none (fs : FS) (n : FName)
    (h : FS.lookup fs n = none) : FS.erase fs n = fs := by
  induction fs with
  | nil => rfl
  | cons p t ih =>
    cases p with
    | mk m s =>
      by_cases hm : m = n
      · simp [FS.lookup, hm] at h
      · simp [FS.lookup, hm] at h
        simp [FS.erase, hm, ih h]

theorem FS.lookup_write_self (fs : FS) (n : FName) (s : Nat) :
    FS.lookup (FS.write fs n s) n = some s := by
  simp [FS.write, FS.lookup]

theorem FS.lookup_write_ne (fs : FS) (m n : FName) (s : Nat) (h : m ≠ n) :
    FS.lookup (FS.write fs m s) n = FS.lookup fs n := by
  simp [FS.write, FS.lookup, h]
  exact FS.lookup_erase_ne fs m n h

theorem FS.erase_erase_self (fs : FS) (n : FName) :
    FS.erase (FS.erase fs n) n = FS.erase fs n :=
  FS.erase_of_lookup_none _ n (FS.lookup_erase_self fs n)

theorem FS.erase_write_self (fs : FS) (n : FName) (s : Nat) :
    FS.erase (FS.write fs n s) n = FS.erase fs n := by
  simp [FS.write, FS.erase, FS.erase_erase_self]

theorem FS.countKey_erase_self (fs : FS) (n : FName) :
    FS.countKey (FS.erase fs n) n = 0 := by
  induction fs with
  | nil => rfl
  | cons p t ih =>
    cases p with
    | mk m s =>
      by_cases h : m = n
      · simp [FS.erase, h, ih]
      · simp [FS.erase, FS.countKey, h, ih]

theorem FS.countKey_write_self (fs : FS) (n : FName) (s : Nat) :
    FS.countKey (FS.write fs n s) n = 1 := by
  simp [FS.write, FS.countKey, FS.countKey_erase_self]

/-- Codec-oracle view of one asset for compress_images.py: whether the
whole PIL decode-convert-resize-save block runs without an exception
(codecOk), whether the shutil.copy2 backup write succeeds (backupOk), and
the byte size the encoder produces for the candidate (encodedSize). -/
structure ConsOracle where
  backupOk : Bool
  codecOk : Bool
  encodedSize : Nat
deriving DecidableEq, Repr

/-- Aggregate counters of compress_images.py main: processed, failed,
total_original, total_compressed. -/
structure ConsStats where
  processed : Nat
  failed : Nat
  totalOriginal : Nat
  totalCompressed : Nat
deriving DecidableEq, Repr

/-- Backup step shared by compress_images.py, compress_images_aggressive.py
and compress_webp_aggressive.py: if no file exists yet under the asset's
name in the backup area, copy the current live bytes there; otherwise do
nothing. -/
def ensure_backup (a : FName) (liveSize : Nat) (bk : FS) : FS :=
  if (FS.lookup bk a).isSome then bk else FS.write bk a liveSize

/-- N successive runs against the same backup area for one asset: the
list holds the asset's live byte size at the time of each run (later runs
see the possibly already compressed live file). -/
def runBackups (a : FName) : List Nat → FS → FS
  | [], bk => bk
  | s :: rest, bk => runBackups a rest (ensure_backup a s bk)

/-- compress_image of compress_images.py.  The try block decodes, converts
mode, resizes, saves to output, then reads both byte sizes and computes
reduction = (1 - compressed/original) * 100; any exception (decode or
encode failure, or ZeroDivisionError when the original size is 0) is
caught and None is returned.  The save happens before the sizes are read,
so on the zero-size path the candidate file has already been written. -/
def compress_image (input output : FName) (o : ConsOracle) (fs : FS) :
    Option (Nat × Nat) × FS :=
  if o.codecOk = false then (none, fs)
  else
    let fs1 := FS.write fs output o.encodedSize
    let orig := (FS.lookup fs1 input).getD 0
    let comp := (FS.lookup fs1 output).getD 0
    if orig = 0 then (none, fs1) else (some (orig, comp), fs1)

/-- Per-asset body of compress_images.py main: back up the original if no
backup exists yet (an uncaught copy failure propagates as Except.error,
exactly as the unprotected shutil.copy2 call would), compress to the
".temp_"-named candidate, then commit, discard or count the failure.  The
truthiness test `if original_size and compressed_size` sends a candidate
reported with size 0 down the failure branch. -/
def cons_session (a : FName) (o : ConsOracle) (bk fs : FS) (st : ConsStats) :
    Except Unit (FS × FS × ConsStats) :=
  if (FS.lookup bk a).isNone ∧ o.backupOk = false then Except.error ()
  else
    let bk1 := ensure_backup a ((FS.lookup fs a).getD 0) bk
    let temp := tempOf a
    let r := compress_image a temp o fs
    match r.1 with
    | some (orig, comp) =>
        if comp ≠ 0 then
          if comp < orig then
            Except.ok (bk1, FS.replace r.2 temp a,
              { st with processed := st.processed + 1,
                        totalOriginal := st.totalOriginal + orig,
                        totalCompressed := st.totalCompressed + comp })
          else
            Except.ok (bk1, FS.erase r.2 temp,
              { st with processed := st.processed + 1 })
        else
          Except.ok (bk1, FS.erase r.2 temp,
            { st with failed := st.failed + 1 })
    | none =>
        Except.ok (bk1, FS.erase r.2 temp,
          { st with failed := st.failed + 1 })

/-- Main loop of compress_images.py over the assets that pass the
extension filter: sessions run in order, and an uncaught exception (a
failed backup copy) aborts the whole run on the spot — the flag records
that the batch stopped early, with the remaining assets unprocessed. -/
def cons_run : List (FName × ConsOracle) → FS → FS → ConsStats →
    FS × FS × ConsStats × Bool
  | [], bk, fs, st => (bk, fs, st, false)
  | (a, o) :: rest, bk, fs, st =>
      match cons_session a o bk fs st with
      | Except.ok (bk1, fs1, st1) => cons_run rest bk1 fs1 st1
      | Except.error _ => (bk, fs, st, true)

/-- Codec-oracle view of one asset for compress_images_aggressive.py:
decode success, the decoded color mode and alpha plane (consumed by
has_transparency), and the candidate byte size the encoder produces. -/
structure AggrImg where
  decodeOk : Bool
  mode : Mode
  alphaVals : List Nat
  encodedSize : Nat
deriving DecidableEq, Repr

/-- Aggregate counters of compress_images_aggressive.py main: processed,
failed, converted_to_jpg, total_original, total_compressed. -/
structure AggrStats where
  processed : Nat
  failed : Nat
  converted : Nat
  totalOriginal : Nat
  totalCompressed : Nat
deriving DecidableEq, Repr

/-- compress_image of compress_images_aggressive.py.  After decode,
transparency classification and resize, the format branch picks the save
target: with use_webp and alpha the candidate is WebP at output_path; a
PNG without alpha is re-targeted to output_path.with_suffix of jpg and
saved as JPEG (the container change); a PNG with alpha is re-saved as
optimized PNG; anything else is re-encoded JPEG at output_path.  The
function returns the sizes together with the final output path. -/
def compress_image_aggr (input output : FName) (img : AggrImg)
    (useWebp : Bool) (fs : FS) : Option (Nat × Nat × FName) × FS :=
  if img.decodeOk = false then (none, fs)
  else
    let hasAlpha := has_transparency img.mode img.alphaVals
    let outPath :=
      if useWebp = true ∧ hasAlpha = true then output
      else if input.ext = Ext.png ∧ hasAlpha = false then withSuffix output Ext.jpg
      else output
    let fs1 := FS.write fs outPath img.encodedSize
    let orig := (FS.lookup fs1 input).getD 0
    let comp := (FS.lookup fs1 outPath).getD 0
    if orig = 0 then (none, fs1) else (some (orig, comp, outPath), fs1)

/-- Per-asset body of compress_images_aggressive.py main: back up, encode
to the ".temp_"-named candidate (use_webp False), then branch.  A strictly
smaller candidate whose final suffix differs from the source's deletes
the original file and bumps converted_to_jpg — the source performs no
rename in that branch; a same-suffix candidate is renamed onto the
original; a non-shrinking candidate is discarded (the temp name and, when
different, the final output are both unlinked); a failure unlinks the
temp name. -/
def aggr_session (a : FName) (img : AggrImg) (bk fs : FS) (st : AggrStats) :
    FS × FS × AggrStats :=
  let bk1 := ensure_backup a ((FS.lookup fs a).getD 0) bk
  let temp := tempOf a
  let r := compress_image_aggr a temp img false fs
  match r.1 with
  | some (orig, comp, finalOut) =>
      if comp ≠ 0 then
        if comp < orig then
          if finalOut.ext ≠ a.ext then
            (bk1, FS.erase r.2 a,
              { st with processed := st.processed + 1,
                        converted := st.converted + 1,
                        totalOriginal := st.totalOriginal + orig,
                        totalCompressed := st.totalCompressed + comp })
          else
            (bk1, FS.replace r.2 temp a,
              { st with processed := st.processed + 1,
                        totalOriginal := st.totalOriginal + orig,
                        totalCompressed := st.totalCompressed + comp })
        else
          let fs2 := FS.erase r.2 temp
          let fs3 := if finalOut ≠ temp then FS.erase fs2 finalOut else fs2
          (bk1, fs3, { st with processed := st.processed + 1 })
      else
        (bk1, FS.erase r.2 temp, { st with failed := st.failed + 1 })
  | none =>
      (bk1, FS.erase r.2 temp, { st with failed := st.failed + 1 })

/-- Main loop of compress_images_aggressive.py over the assets that pass
the extension filter: files whose names carry the ".temp_" marker are
skipped, every other asset gets a session. -/
def aggr_run : List (FName × AggrImg) → FS → FS → AggrStats →
    FS × FS × AggrStats
  | [], bk, fs, st => (bk, fs, st)
  | (a, img) :: rest, bk, fs, st =>
      if a.tempDepth ≠ 0 then aggr_run rest bk fs st
      else
        let r := aggr_session a img bk fs st
        aggr_run rest r.1 r.2.1 r.2.2

/-- Existence of a file matching the temporary-name convention. -/
def hasTempName (fs : FS) : Bool :=
  fs.any (fun p => decide (p.1.tempDepth ≠ 0))

/-- Outcome the codec oracle reports for one convert_jpg_to_webp call:
success with the encoded size, an exception before the save touched the
target, or an exception after a partial write of the given size. -/
inductive EncodeOutcome
  | ok (size : Nat)
  | failEarly
  | failPartial (size : Nat)
deriving DecidableEq, Repr

/-- with_suffix of webp, the encode target convert_to_webp.py derives
from the JPG asset name — a live name, not a temporary one. -/
def webpTarget (n : FName) : FName :=
  withSuffix n Ext.webp

/-- convert_jpg_to_webp of convert_to_webp.py: decode, convert, resize,
save directly to webp_path, then read both sizes and the reduction; any
exception is caught and (False, 0, 0, 0, error) returned.  A
ZeroDivisionError on a zero-size original strikes after the save, so the
written candidate stays. -/
def convert_jpg_to_webp (input output : FName) (e : EncodeOutcome)
    (fs : FS) : (Bool × Nat × Nat) × FS :=
  match e with
  | EncodeOutcome.ok sz =>
      let fs1 := FS.write fs output sz
      let orig := (FS.lookup fs1 input).getD 0
      if orig = 0 then ((false, 0, 0), fs1) else ((true, orig, sz), fs1)
  | EncodeOutcome.failEarly => ((false, 0, 0), fs)
  | EncodeOutcome.failPartial sz => ((false, 0, 0), FS.write fs output sz)

/-- Counters of convert_to_webp.py main. -/
structure WebpStats where
  converted : Nat
  failed : Nat
deriving DecidableEq, Repr

/-- Per-asset body of convert_to_webp.py main: the candidate is written
straight at the with_suffix webp name; on success with a strictly smaller
result the JPG is backed up and deleted; on success with a non-smaller
result the webp file is deleted; on failure nothing is cleaned up. -/
def webp_session (jpg : FName) (e : EncodeOutcome) (bk fs : FS)
    (st : WebpStats) : FS × FS × WebpStats :=
  let target := webpTarget jpg
  let r := convert_jpg_to_webp jpg target e fs
  let ok := r.1.1
  let orig := r.1.2.1
  let comp := r.1.2.2
  if ok = true ∧ comp < orig then
    let bk1 := ensure_backup jpg ((FS.lookup r.2 jpg).getD 0) bk
    (bk1, FS.erase r.2 jpg, { st with converted := st.converted + 1 })
  else if ok = true then
    (bk, FS.erase r.2 target, { st with converted := st.converted + 1 })
  else
    (bk, r.2, { st with failed := st.failed + 1 })

/-- Resize step of the scripts: the source guards with
`if img.size[0] > max_size[0] or img.size[1] > max_size[1]` and only then
calls img.thumbnail(max_size, LANCZOS).  The thumbnail computation itself
belongs to the external codec library; its fit-within-box scaling is
modelled from the spec: scale both dimensions by the smaller of the two
bound ratios, preserving aspect ratio exactly. -/
def plan_resize (w h maxw maxh : Nat) : ℚ × ℚ :=
  if w ≤ maxw ∧ h ≤ maxh then ((w : ℚ), (h : ℚ))
  else
    let s : ℚ := min ((maxw : ℚ) / (w : ℚ)) ((maxh : ℚ) / (h : ℚ))
    ((w : ℚ) * s, (h : ℚ) * s)

/-- C1: evaluation of compress_images_aggressive.py at the failing input.
The claim says a committed candidate whose container changed leaves
exactly one live file with the same base name under the new extension
(the candidate renamed into place).  The code instead only deletes the
original: for an opaque card.png of 100 bytes with a 50-byte JPEG
candidate, after the run the live card.png is gone, no live card.jpg
exists, the candidate still sits under its temporary name
.temp_card.jpg, and the converted counter is 1. -/
theorem C1_code_behavior :
    aggr_run [(⟨0, "card", Ext.png⟩, ⟨true, Mode.RGB, [], 50⟩)] []
        [(⟨0, "card", Ext.png⟩, 100)] ⟨0, 0, 0, 0, 0⟩ =
      ([(⟨0, "card", Ext.png⟩, 100)], [(⟨1, "card", Ext.jpg⟩, 50)],
        ⟨1, 0, 1, 100, 50⟩) ∧
    FS.lookup [(⟨1, "card", Ext.jpg⟩, 50)] ⟨0, "card", Ext.png⟩ = none ∧
    FS.lookup [(⟨1, "card", Ext.jpg⟩, 50)] ⟨0, "card", Ext.jpg⟩ = none ∧
    (⟨1, "card", Ext.jpg⟩ : FName).tempDepth ≠ 0 := by
  decide

/-- C2: evaluation of compress_images_aggressive.py at the failing input.
The claim says no file matching the temporary-name convention remains in
the collection root after a run.  In the format-change commit path the
candidate is never renamed or deleted: starting from a collection with no
temporary files, after the run a file carrying the ".temp_" marker
remains. -/
theorem C2_code_behavior :
    hasTempName [(⟨0, "tower", Ext.png⟩, 200)] = false ∧
    hasTempName (aggr_run
        [(⟨0, "tower", Ext.png⟩, ⟨true, Mode.RGB, [], 60⟩)] []
        [(⟨0, "tower", Ext.png⟩, 200)] ⟨0, 0, 0, 0, 0⟩).2.1 = true := by
  decide

/-- C3 counterexample: a failed backup copy is not mapped to a per-asset
Failed outcome.  With two assets where the first asset's shutil.copy2
raises, the run of compress_images.py aborts on the spot: the abort flag
is set, failed stays 0, and the second asset is never processed (the file
system and every counter are unchanged). -/
theorem C3_counterexample :
    cons_run
        [(⟨0, "a", Ext.png⟩, ⟨false, true, 10⟩),
         (⟨0, "b", Ext.png⟩, ⟨true, true, 5⟩)] []
        [(⟨0, "a", Ext.png⟩, 100), (⟨0, "b", Ext.png⟩, 100)] ⟨0, 0, 0, 0⟩ =
      ([], [(⟨0, "a", Ext.png⟩, 100), (⟨0, "b", Ext.png⟩, 100)],
        ⟨0, 0, 0, 0⟩, true) := by
  decide

/-- C3 (amended): decode and encode errors are caught at the session
boundary, counted under failed, and the batch continues with the
remaining assets; a backup-copy failure, by contrast, propagates out of
the per-asset code and aborts the whole run.  For any asset whose codec
step fails while its backup step succeeds, the whole run equals the run
of the remaining assets from the updated state, with failed incremented
by one. -/
theorem C3_thm (a : FName) (o : ConsOracle)
    (rest : List (FName × ConsOracle)) (bk fs : FS) (st : ConsStats)
    (hb : o.backupOk = true) (hc : o.codecOk = false) :
    ∃ bk1, cons_run ((a, o) :: rest) bk fs st =
      cons_run rest bk1 (FS.erase fs (tempOf a))
        { st with failed := st.failed + 1 } := by
  refine ⟨ensure_backup a ((FS.lookup fs a).getD 0) bk, ?_⟩
  simp [cons_run, cons_session, compress_image, hb, hc]

/-- C3 witness: the amended statement at a concrete input, a one-asset
run whose codec step fails and whose backup step succeeds. -/
theorem C3_witness :
    (⟨true, false, 10⟩ : ConsOracle).backupOk = true ∧
    (⟨true, false, 10⟩ : ConsOracle).codecOk = false ∧
    ∃ bk1, cons_run [(⟨0, "w3", Ext.png⟩, ⟨true, false, 10⟩)] []
        [(⟨0, "w3", Ext.png⟩, 30)] ⟨0, 0, 0, 0⟩ =
      cons_run [] bk1
        (FS.erase [(⟨0, "w3", Ext.png⟩, 30)] (tempOf ⟨0, "w3", Ext.png⟩))
        ⟨0, 1, 0, 0⟩ :=
  ⟨rfl, rfl, C3_thm ⟨0, "w3", Ext.png⟩ ⟨true, false, 10⟩ [] []
    [(⟨0, "w3", Ext.png⟩, 30)] ⟨0, 0, 0, 0⟩ rfl rfl⟩

/-- C4 counterexample: for the grayscale+alpha mode LA the code does not
scan the alpha plane.  An LA image whose only alpha value is the fully
opaque 255 is still classified as transparent, although no pixel's alpha
is strictly below 255. -/
theorem C4_counterexample :
    modeHasAlpha Mode.LA = true ∧
    has_transparency Mode.LA [255] = true ∧
    ([255] : List Nat).any (fun p => decide (p < 255)) = false := by
  decide

/-- C4 (amended): has_transparency returns False for every mode without
an alpha channel; for RGBA it returns True iff at least one pixel's alpha
is strictly below 255 (a full scan of the alpha plane); for LA it returns
True unconditionally, whatever the alpha values are. -/
theorem C4_thm (m : Mode) (a : List Nat) :
    (modeHasAlpha m = false → has_transparency m a = false) ∧
    (m = Mode.RGBA → (has_transparency m a = true ↔ ∃ p ∈ a, p < 255)) ∧
    (m = Mode.LA → has_transparency m a = true) := by
  refine ⟨?_, ?_, ?_⟩
  · intro hm
    cases m <;> simp [has_transparency] <;> simp [modeHasAlpha] at hm
  · rintro rfl
    simp [has_transparency, List.any_eq_true]
  · rintro rfl
    rfl

/-- C5 counterexample: a Discarded session does not update the byte
counters.  An asset of 50 bytes whose candidate encodes to 60 bytes is
discarded, counted as processed, and both total_original and
total_compressed stay 0 instead of growing by the original and remaining
live size. -/
theorem C5_counterexample :
    cons_session ⟨0, "c", Ext.png⟩ ⟨true, true, 60⟩ []
        [(⟨0, "c", Ext.png⟩, 50)] ⟨0, 0, 0, 0⟩ =
      Except.ok ([(⟨0, "c", Ext.png⟩, 50)], [(⟨0, "c", Ext.png⟩, 50)],
        ⟨1, 0, 0, 0⟩) := by
  rfl

/-- C5 (amended): only a Committed session updates the aggregate byte
counters, adding the original size to bytes_before and the candidate size
to bytes_after; a Discarded session (candidate not smaller) leaves both
counters unchanged and only increments processed. -/
theorem C5_thm (a : FName) (o : ConsOracle) (bk fs : FS) (st : ConsStats)
    (orig : Nat) (hb : o.backupOk = true) (hc : o.codecOk = true)
    (ho : FS.lookup fs a = some orig) (horig : orig ≠ 0)
    (hcz : o.encodedSize ≠ 0) :
    ∃ bk1 fs1, cons_session a o bk fs st = Except.ok (bk1, fs1,
      if o.encodedSize < orig then
        { st with processed := st.processed + 1,
                  totalOriginal := st.totalOriginal + orig,
                  totalCompressed := st.totalCompressed + o.encodedSize }
      else { st with processed := st.processed + 1 }) := by
  have hta : tempOf a ≠ a := tempOf_ne a
  by_cases hlt : o.encodedSize < orig
  · refine ⟨ensure_backup a ((FS.lookup fs a).getD 0) bk,
      FS.replace (FS.write fs (tempOf a) o.encodedSize) (tempOf a) a, ?_⟩
    simp [cons_session, compress_image, hb, hc, hlt, horig, hcz,
      FS.lookup_write_ne fs (tempOf a) a o.encodedSize hta, ho,
      FS.lookup_write_self]
  · refine ⟨ensure_backup a ((FS.lookup fs a).getD 0) bk,
      FS.erase (FS.write fs (tempOf a) o.encodedSize) (tempOf a), ?_⟩
    simp [cons_session, compress_image, hb, hc, hlt, horig, hcz,
      FS.lookup_write_ne fs (tempOf a) a o.encodedSize hta, ho,
      FS.lookup_write_self]

/-- C5 witness: the amended statement at a concrete committed input, an
80-byte asset whose candidate encodes to 20 bytes. -/
theorem C5_witness :
    (⟨true, true, 20⟩ : ConsOracle).backupOk = true ∧
    (⟨true, true, 20⟩ : ConsOracle).codecOk = true ∧
    FS.lookup [(⟨0, "w5", Ext.png⟩, 80)] ⟨0, "w5", Ext.png⟩ = some 80 ∧
    (80 : Nat) ≠ 0 ∧ (⟨true, true, 20⟩ : ConsOracle).encodedSize ≠ 0 ∧
    ∃ bk1 fs1, cons_session ⟨0, "w5", Ext.png⟩ ⟨true, true, 20⟩ []
        [(⟨0, "w5", Ext.png⟩, 80)] ⟨0, 0, 0, 0⟩ =
      Except.ok (bk1, fs1, ⟨1, 0, 80, 20⟩) :=
  ⟨rfl, rfl, by decide, by decide, by decide,
    C5_thm ⟨0, "w5", Ext.png⟩ ⟨true, true, 20⟩ [] [(⟨0, "w5", Ext.png⟩, 80)]
      ⟨0, 0, 0, 0⟩ 80 rfl rfl (by decide) (by decide) (by decide)⟩

/-- C6: for an asset whose encode succeeds with a nonempty candidate and
a nonempty original and no stale temporary file, the commit decision
compares the candidate size to the original size: strictly smaller
replaces the original with the candidate (and the temporary name is
gone); equal or larger leaves the file system exactly as it was (the
candidate deleted, the original untouched); in both cases processed is
incremented and failed is not. -/
theorem C6_thm (a : FName) (o : ConsOracle) (bk fs : FS) (st : ConsStats)
    (orig : Nat) (hb : o.backupOk = true) (hc : o.codecOk = true)
    (ho : FS.lookup fs a = some orig) (horig : orig ≠ 0)
    (hcz : o.encodedSize ≠ 0) (htemp : FS.lookup fs (tempOf a) = none) :
    ∃ bk1 fs1 st1, cons_session a o bk fs st = Except.ok (bk1, fs1, st1) ∧
      st1.processed = st.processed + 1 ∧ st1.failed = st.failed ∧
      (o.encodedSize < orig →
        FS.lookup fs1 a = some o.encodedSize ∧
        FS.lookup fs1 (tempOf a) = none) ∧
      (¬ o.encodedSize < orig → fs1 = fs) := by
  have hta : tempOf a ≠ a := tempOf_ne a
  have herase : FS.erase (FS.write fs (tempOf a) o.encodedSize) (tempOf a)
      = fs := by
    rw [FS.erase_write_self, FS.erase_of_lookup_none fs (tempOf a) htemp]
  by_cases hlt : o.encodedSize < orig
  · refine ⟨ensure_backup a ((FS.lookup fs a).getD 0) bk,
      FS.write fs a o.encodedSize,
      { st with processed := st.processed + 1,
                totalOriginal := st.totalOriginal + orig,
                totalCompressed := st.totalCompressed + o.encodedSize },
      ?_, rfl, rfl, ?_, ?_⟩
    · simp [cons_session, compress_image, hb, hc, hlt, horig, hcz,
        FS.lookup_write_ne fs (tempOf a) a o.encodedSize hta, ho,
        FS.lookup_write_self, FS.replace, herase]
    · intro _
      refine ⟨FS.lookup_write_self fs a o.encodedSize, ?_⟩
      rw [FS.lookup_write_ne fs a (tempOf a) o.encodedSize hta.symm]
      exact htemp
    · intro hn
      exact absurd hlt hn
  · refine ⟨ensure_backup a ((FS.lookup fs a).getD 0) bk, fs,
      { st with processed := st.processed + 1 }, ?_, rfl, rfl, ?_, ?_⟩
    · have := herase
      simp [cons_session, compress_image, hb, hc, hlt, horig, hcz,
        FS.lookup_write_ne fs (tempOf a) a o.encodedSize hta, ho,
        FS.lookup_write_self, herase]
    · intro hpos
      exact absurd hpos hlt
    · intro _
      rfl

/-- C6 witness: the commit rule at a concrete input, a 100-byte asset
whose candidate encodes to 30 bytes. -/
theorem C6_witness :
    (⟨true, true, 30⟩ : ConsOracle).backupOk = true ∧
    (⟨true, true, 30⟩ : ConsOracle).codecOk = true ∧
    FS.lookup [(⟨0, "w6", Ext.png⟩, 100)] ⟨0, "w6", Ext.png⟩ = some 100 ∧
    (100 : Nat) ≠ 0 ∧ (⟨true, true, 30⟩ : ConsOracle).encodedSize ≠ 0 ∧
    FS.lookup [(⟨0, "w6", Ext.png⟩, 100)] (tempOf ⟨0, "w6", Ext.png⟩) = none ∧
    ∃ bk1 fs1 st1,
      cons_session ⟨0, "w6", Ext.png⟩ ⟨true, true, 30⟩ []
          [(⟨0, "w6", Ext.png⟩, 100)] ⟨0, 0, 0, 0⟩ =
        Except.ok (bk1, fs1, st1) ∧
      st1.processed = 0 + 1 ∧ st1.failed = 0 ∧
      ((⟨true, true, 30⟩ : ConsOracle).encodedSize < 100 →
        FS.lookup fs1 ⟨0, "w6", Ext.png⟩ = some 30 ∧
        FS.lookup fs1 (tempOf ⟨0, "w6", Ext.png⟩) = none) ∧
      (¬ (⟨true, true, 30⟩ : ConsOracle).encodedSize < 100 →
        fs1 = [(⟨0, "w6", Ext.png⟩, 100)]) :=
  ⟨rfl, rfl, by decide, by decide, by decide, by decide,
    C6_thm ⟨0, "w6", Ext.png⟩ ⟨true, true, 30⟩ [] [(⟨0, "w6", Ext.png⟩, 100)]
      ⟨0, 0, 0, 0⟩ 100 rfl rfl (by decide) (by decide) (by decide) (by decide)⟩

/-- Stability of an existing backup across further runs: once the backup
area holds exactly one entry for the asset, every later ensure_backup
call is a no-op. -/
theorem runBackups_stable (a : FName) (l : List Nat) (bk : FS) (s : Nat)
    (h : FS.lookup bk a = some s) (hc : FS.countKey bk a = 1) :
    FS.lookup (runBackups a l bk) a = some s ∧
    FS.countKey (runBackups a l bk) a = 1 := by
  induction l generalizing bk with
  | nil => exact ⟨h, hc⟩
  | cons x t ih =>
    have hno : ensure_backup a x bk = bk := by
      simp [ensure_backup, h]
    rw [runBackups, hno]
    exact ih bk h hc

/-- C7: the backup operation is idempotent with first-write-wins.  If the
destination already exists, ensure_backup is a no-op; and over any N >= 1
runs against a backup area that starts without a backup for the asset,
exactly one backup file exists afterwards and its bytes are the asset's
bytes as of the first run, whatever the later live sizes were. -/
theorem C7_thm (a : FName) (s0 : Nat) (rest : List Nat) (bk : FS)
    (h : FS.lookup bk a = none) :
    (∀ x bk2, (FS.lookup bk2 a).isSome = true → ensure_backup a x bk2 = bk2) ∧
    FS.lookup (runBackups a (s0 :: rest) bk) a = some s0 ∧
    FS.countKey (runBackups a (s0 :: rest) bk) a = 1 := by
  have h1 : runBackups a (s0 :: rest) bk
      = runBackups a rest (FS.write bk a s0) := by
    rw [runBackups]
    congr 1
    simp [ensure_backup, h]
  have h2 := runBackups_stable a rest (FS.write bk a s0) s0
    (FS.lookup_write_self bk a s0) (FS.countKey_write_self bk a s0)
  refine ⟨fun x bk2 hx => by simp [ensure_backup, hx], ?_, ?_⟩
  · rw [h1]; exact h2.1
  · rw [h1]; exact h2.2

/-- C7 witness: three runs against a fresh backup area, live sizes 7, 3
and 4 — the backup keeps the first-run bytes. -/
theorem C7_witness :
    FS.lookup [] ⟨0, "w7", Ext.png⟩ = none ∧
    ((∀ x bk2, (FS.lookup bk2 ⟨0, "w7", Ext.png⟩).isSome = true →
        ensure_backup ⟨0, "w7", Ext.png⟩ x bk2 = bk2) ∧
      FS.lookup (runBackups ⟨0, "w7", Ext.png⟩ [7, 3, 4] [])
        ⟨0, "w7", Ext.png⟩ = some 7 ∧
      FS.countKey (runBackups ⟨0, "w7", Ext.png⟩ [7, 3, 4] [])
        ⟨0, "w7", Ext.png⟩ = 1) :=
  ⟨rfl, C7_thm ⟨0, "w7", Ext.png⟩ 7 [3, 4] [] rfl⟩

/-- C8: the resize plan returns the dimensions unchanged when both fit
the bound; otherwise it scales both dimensions by the same factor, the
result fits within the bound, is never larger than the input, and the
aspect ratio is preserved exactly (new_w * h = new_h * w). -/
theorem C8_thm (w h maxw maxh : Nat) (hw : 0 < w) (hh : 0 < h) :
    (w ≤ maxw ∧ h ≤ maxh →
      plan_resize w h maxw maxh = ((w : ℚ), (h : ℚ))) ∧
    (¬ (w ≤ maxw ∧ h ≤ maxh) →
      (plan_resize w h maxw maxh).1 ≤ (maxw : ℚ) ∧
      (plan_resize w h maxw maxh).2 ≤ (maxh : ℚ)) ∧
    (plan_resize w h maxw maxh).1 ≤ (w : ℚ) ∧
    (plan_resize w h maxw maxh).2 ≤ (h : ℚ) ∧
    (plan_resize w h maxw maxh).1 * (h : ℚ)
      = (plan_resize w h maxw maxh).2 * (w : ℚ) := by
  have hwq : (0 : ℚ) < (w : ℚ) := by exact_mod_cast hw
  have hhq : (0 : ℚ) < (h : ℚ) := by exact_mod_cast hh
  by_cases hin : w ≤ maxw ∧ h ≤ maxh
  · refine ⟨fun _ => by simp [plan_resize, hin], fun hn => absurd hin hn,
      ?_, ?_, ?_⟩
    · simp [plan_resize, hin]
    · simp [plan_resize, hin]
    · simp only [plan_resize, if_pos hin]
      ring
  · simp only [plan_resize, if_neg hin]
    have hs1 : min ((maxw : ℚ) / (w : ℚ)) ((maxh : ℚ) / (h : ℚ))
        ≤ (maxw : ℚ) / (w : ℚ) := min_le_left _ _
    have hs2 : min ((maxw : ℚ) / (w : ℚ)) ((maxh : ℚ) / (h : ℚ))
        ≤ (maxh : ℚ) / (h : ℚ) := min_le_right _ _
    have hs3 : min ((maxw : ℚ) / (w : ℚ)) ((maxh : ℚ) / (h : ℚ)) ≤ 1 := by
      rcases not_and_or.mp hin with hover | hover
      · refine le_trans hs1 ?_
        rw [div_le_one hwq]
        exact_mod_cast Nat.le_of_lt (Nat.lt_of_not_le hover)
      · refine le_trans hs2 ?_
        rw [div_le_one hhq]
        exact_mod_cast Nat.le_of_lt (Nat.lt_of_not_le hover)
    refine ⟨fun hcon => absurd hcon hin, fun _ => ⟨?_, ?_⟩, ?_, ?_, ?_⟩
    · calc (w : ℚ) * min ((maxw : ℚ) / (w : ℚ)) ((maxh : ℚ) / (h : ℚ))
          ≤ (w : ℚ) * ((maxw : ℚ) / (w : ℚ)) :=
            mul_le_mul_of_nonneg_left hs1 (le_of_lt hwq)
        _ = (maxw : ℚ) := by field_simp
    · calc (h : ℚ) * min ((maxw : ℚ) / (w : ℚ)) ((maxh : ℚ) / (h : ℚ))
          ≤ (h : ℚ) * ((maxh : ℚ) / (h : ℚ)) :=
            mul_le_mul_of_nonneg_left hs2 (le_of_lt hhq)
        _ = (maxh : ℚ) := by field_simp
    · calc (w : ℚ) * min ((maxw : ℚ) / (w : ℚ)) ((maxh : ℚ) / (h : ℚ))
          ≤ (w : ℚ) * 1 := mul_le_mul_of_nonneg_left hs3 (le_of_lt hwq)
        _ = (w : ℚ) := mul_one _
    · calc (h : ℚ) * min ((maxw : ℚ) / (w : ℚ)) ((maxh : ℚ) / (h : ℚ))
          ≤ (h : ℚ) * 1 := mul_le_mul_of_nonneg_left hs3 (le_of_lt hhq)
        _ = (h : ℚ) := mul_one _
    · ring

/-- C8 witness: the resize plan at the aggressive scenario of the spec, a
3000 by 5000 image against the 1200 by 2000 bound. -/
theorem C8_witness :
    (0 : Nat) < 3000 ∧ (0 : Nat) < 5000 ∧
    ((3000 ≤ 1200 ∧ 5000 ≤ 2000 →
      plan_resize 3000 5000 1200 2000 = ((3000 : ℚ), (5000 : ℚ))) ∧
    (¬ (3000 ≤ 1200 ∧ 5000 ≤ 2000) →
      (plan_resize 3000 5000 1200 2000).1 ≤ (1200 : ℚ) ∧
      (plan_resize 3000 5000 1200 2000).2 ≤ (2000 : ℚ)) ∧
    (plan_resize 3000 5000 1200 2000).1 ≤ (3000 : ℚ) ∧
    (plan_resize 3000 5000 1200 2000).2 ≤ (5000 : ℚ) ∧
    (plan_resize 3000 5000 1200 2000).1 * (5000 : ℚ)
      = (plan_resize 3000 5000 1200 2000).2 * (3000 : ℚ)) :=
  ⟨by decide, by decide, C8_thm 3000 5000 1200 2000 (by decide) (by decide)⟩

/-- C9 counterexample: convert_to_webp.py encodes straight to the live
with_suffix webp name — not to a temporary path.  With a collection
holding t.jpg (100 bytes) and a live t.webp (40 bytes), the encode target
for t.jpg is exactly the live t.webp (no ".temp_" marker), the session
overwrites it (90 bytes remain); and for a conversion that fails after a
partial write, the partial candidate t2.webp stays in the collection
while failed is counted. -/
theorem C9_counterexample :
    FS.lookup [(⟨0, "t", Ext.jpg⟩, 100), (⟨0, "t", Ext.webp⟩, 40)]
        (webpTarget ⟨0, "t", Ext.jpg⟩) = some 40 ∧
    (webpTarget ⟨0, "t", Ext.jpg⟩).tempDepth = 0 ∧
    (webp_session ⟨0, "t", Ext.jpg⟩ (EncodeOutcome.ok 90) []
        [(⟨0, "t", Ext.jpg⟩, 100), (⟨0, "t", Ext.webp⟩, 40)] ⟨0, 0⟩).2.1 =
      [(⟨0, "t", Ext.webp⟩, 90)] ∧
    (webp_session ⟨0, "t2", Ext.jpg⟩ (EncodeOutcome.failPartial 10) []
        [(⟨0, "t2", Ext.jpg⟩, 100)] ⟨0, 0⟩).2.1 =
      [(⟨0, "t2", Ext.webp⟩, 10), (⟨0, "t2", Ext.jpg⟩, 100)] ∧
    (webp_session ⟨0, "t2", Ext.jpg⟩ (EncodeOutcome.failPartial 10) []
        [(⟨0, "t2", Ext.jpg⟩, 100)] ⟨0, 0⟩).2.2.failed = 1 := by
  decide

/-- C9 (amended): in the compress_images.py session the candidate goes to
the ".temp_"-marked name derived deterministically and injectively from
the asset name, which is distinct from every live asset name; and on a
codec failure the session ends with no file under the candidate's name.
convert_to_webp.py does not follow this discipline (see the
counterexample). -/
theorem C9_thm (a : FName) (o : ConsOracle) (bk fs : FS) (st : ConsStats)
    (hb : o.backupOk = true) (hc : o.codecOk = false) :
    (∀ b : FName, b.tempDepth = 0 → tempOf a ≠ b) ∧
    (∀ b c : FName, tempOf b = tempOf c → b = c) ∧
    ∃ bk1 fs1, cons_session a o bk fs st =
        Except.ok (bk1, fs1, { st with failed := st.failed + 1 }) ∧
      FS.lookup fs1 (tempOf a) = none := by
  refine ⟨fun b hb0 => tempOf_ne_live a b hb0, fun b c hbc => tempOf_inj b c hbc,
    ensure_backup a ((FS.lookup fs a).getD 0) bk, FS.erase fs (tempOf a),
    ?_, ?_⟩
  · simp [cons_session, compress_image, hb, hc]
  · exact FS.lookup_erase_self fs (tempOf a)

/-- C9 witness: the temporary-path discipline at a concrete input, a
failing codec call on a 64-byte asset. -/
theorem C9_witness :
    (⟨true, false, 9⟩ : ConsOracle).backupOk = true ∧
    (⟨true, false, 9⟩ : ConsOracle).codecOk = false ∧
    ((∀ b : FName, b.tempDepth = 0 → tempOf ⟨0, "w9", Ext.png⟩ ≠ b) ∧
    (∀ b c : FName, tempOf b = tempOf c → b = c) ∧
    ∃ bk1 fs1, cons_session ⟨0, "w9", Ext.png⟩ ⟨true, false, 9⟩ []
        [(⟨0, "w9", Ext.png⟩, 64)] ⟨0, 0, 0, 0⟩ =
        Except.ok (bk1, fs1, ⟨0, 1, 0, 0⟩) ∧
      FS.lookup fs1 (tempOf ⟨0, "w9", Ext.png⟩) = none) :=
  ⟨rfl, rfl, C9_thm ⟨0, "w9", Ext.png⟩ ⟨true, false, 9⟩ []
    [(⟨0, "w9", Ext.png⟩, 64)] ⟨0, 0, 0, 0⟩ rfl rfl⟩

/-- C10: an asset whose live file has byte size zero ends its session
counted under failed, not processed, even though the encode step itself
succeeds (the candidate is written before the per-asset size computation
divides by the zero original size and raises). -/
theorem C10_thm (a : FName) (o : ConsOracle) (bk fs : FS) (st : ConsStats)
    (hb : o.backupOk = true) (hc : o.codecOk = true)
    (h0 : FS.lookup fs a = some 0) :
    ∃ bk1 fs1, cons_session a o bk fs st =
      Except.ok (bk1, fs1, { st with failed := st.failed + 1 }) := by
  have hta : tempOf a ≠ a := tempOf_ne a
  refine ⟨ensure_backup a ((FS.lookup fs a).getD 0) bk,
    FS.erase (FS.write fs (tempOf a) o.encodedSize) (tempOf a), ?_⟩
  simp [cons_session, compress_image, hb, hc,
    FS.lookup_write_ne fs (tempOf a) a o.encodedSize hta, h0]

/-- C10 witness: a zero-byte asset whose encode succeeds is counted as
failed. -/
theorem C10_witness :
    (⟨true, true, 25⟩ : ConsOracle).backupOk = true ∧
    (⟨true, true, 25⟩ : ConsOracle).codecOk = true ∧
    FS.lookup [(⟨0, "w10", Ext.png⟩, 0)] ⟨0, "w10", Ext.png⟩ = some 0 ∧
    ∃ bk1 fs1, cons_session ⟨0, "w10", Ext.png⟩ ⟨true, true, 25⟩ []
        [(⟨0, "w10", Ext.png⟩, 0)] ⟨0, 0, 0, 0⟩ =
      Except.ok (bk1, fs1, ⟨0, 1, 0, 0⟩) :=
  ⟨rfl, rfl, by decide,
    C10_thm ⟨0, "w10", Ext.png⟩ ⟨true, true, 25⟩ [] [(⟨0, "w10", Ext.png⟩, 0)]
      ⟨0, 0, 0, 0⟩ rfl rfl (by decide)⟩

end Tarot
